import Mathlib

/-!
Verification of the data-cleaning utilities in src/utils.py of the
HDB_HousingPrice_ML_Project repository.

Modelling conventions (shallow embedding):
* Python/numpy floats are modelled as rationals (ℚ).  `round(x, 1)` (and the
  pandas/numpy `.round(1)`) round half to even; `roundHalfEven` / `round1`
  below implement that on ℚ.
* Cell values are a closed tagged union `Value`: a number, a string
  (as `List Char`), or a missing value (`Value.null`, modelling None/NaN).
  A missing value in a numeric pandas column is NaN, which is a float whose
  arithmetic propagates missingness; at the level of these claims this is
  the same as `null ↦ null`, which is how it is modelled here.
* A table column is a `List` of cell values; vectorised pandas operations
  become `List.map`.
* `\d` in the Python regexes is modelled as the ASCII digits matched by
  `Char.isDigit`; `re.match` anchors at the start of the string only
  (a prefix match), which the matchers below reproduce.
-/

/-- Floor of a rational as an integer, in computable form (`⌊q⌋`). -/
def ratFloor (q : ℚ) : ℤ := q.num / q.den

/-- Round a rational to the nearest integer, ties to even (Python `round`). -/
def roundHalfEven (q : ℚ) : ℤ :=
  let f : ℤ := ratFloor q
  let r : ℚ := q - f
  if r < 1/2 then f
  else if 1/2 < r then f + 1
  else if f % 2 = 0 then f else f + 1

/-- Round a rational to one decimal place, ties to even (Python `round(x, 1)`). -/
def round1 (q : ℚ) : ℚ := (roundHalfEven (10 * q) : ℚ) / 10

/-- Leading run of ASCII digits of a character list, and the remainder. -/
def takeDigits : List Char → List Char × List Char
  | [] => ([], [])
  | c :: cs =>
    if c.isDigit then
      let p := takeDigits cs
      (c :: p.1, p.2)
    else ([], c :: cs)

/-- Numeric value of a digit string (the `int(...)` of a regex group). -/
def digitsToNat (l : List Char) : ℕ :=
  l.foldl (fun a c => 10 * a + (c.toNat - 48)) 0

/-- Boolean test that the first list is an initial segment of the second. -/
def hasPrefixL : List Char → List Char → Bool
  | [], _ => true
  | _ :: _, [] => false
  | p :: ps, c :: cs => p == c && hasPrefixL ps cs

/-- Anchored match of the Python regex "(\d+) years (\d+) months": a prefix
match, extra trailing text is allowed. Returns the two numeric groups. -/
def matchFull (l : List Char) : Option (ℕ × ℕ) :=
  let p1 := takeDigits l
  if p1.1 = [] then none
  else if hasPrefixL " years ".toList p1.2 then
    let p2 := takeDigits (p1.2.drop 7)
    if p2.1 = [] then none
    else if hasPrefixL " months".toList p2.2 then
      some (digitsToNat p1.1, digitsToNat p2.1)
    else none
  else none

/-- Anchored match of the Python regex "(\d+) years": a prefix match, extra
trailing text is allowed. Returns the numeric group. -/
def matchYears (l : List Char) : Option ℕ :=
  let p1 := takeDigits l
  if p1.1 = [] then none
  else if hasPrefixL " years".toList p1.2 then some (digitsToNat p1.1)
  else none

/-- A cell value: numeric, string, or missing (None/NaN). -/
inductive Value where
  | num (q : ℚ)
  | str (s : List Char)
  | null
deriving DecidableEq

/-- The inner `convert_lease` of `standardize_remaining_lease`
(src/utils.py lines 102-125): numbers are rounded to one decimal and capped
at 99.0; strings are tried against "(\d+) years (\d+) months" then
"(\d+) years" (both `re.match`, i.e. anchored prefix matches); anything
else maps to None.  A missing cell (NaN in a float column) stays missing. -/
def convert_lease (lease : Value) : Option ℚ :=
  match lease with
  | .num q => some (min (round1 q) 99)
  | .str s =>
    match matchFull s with
    | some (years, months) =>
      some (min (round1 ((years : ℚ) + (months : ℚ) / 12)) 99)
    | none =>
      match matchYears s with
      | some years => some (min (round1 (years : ℚ)) 99)
      | none => none
  | .null => none

/-- `standardize_remaining_lease` (src/utils.py lines 90-126) applied to the
remaining_lease column: elementwise `convert_lease`. -/
def standardize_remaining_lease (col : List Value) : List (Option ℚ) :=
  col.map convert_lease

/-- How a per-value result is stored back into the column: a number stays a
number, None/NaN is a missing cell. -/
def resultToValue : Option ℚ → Value
  | some q => .num q
  | none => .null

/-- Python `str.strip()`: remove leading and trailing whitespace. -/
def pyStrip (s : List Char) : List Char :=
  ((s.dropWhile Char.isWhitespace).reverse.dropWhile Char.isWhitespace).reverse

/-- Python `str.upper()` on the ASCII letters of the flat-model labels. -/
def pyUpper (s : List Char) : List Char := s.map Char.toUpper

/-- One cell of the flat_model column under `clean_flat_model`
(src/utils.py lines 49-61).  The pandas `.str.strip().str.upper()` accessor
transforms string cells and produces a missing value (NaN) for every
non-string cell, missing cells included. -/
def clean_flat_model_val : Value → Value
  | .str s => .str (pyUpper (pyStrip s))
  | _ => .null

/-- `clean_flat_model` applied to the flat_model column: elementwise. -/
def clean_flat_model (col : List Value) : List Value :=
  col.map clean_flat_model_val

/-- A datetime cell as produced by `pd.to_datetime`: calendar year, month
and day. -/
structure Date where
  year : ℕ
  month : ℕ
  day : ℕ
deriving DecidableEq

/-- The per-row computation of `impute_remaining_lease`
(src/utils.py lines 63-87): extract current year and month from the month
cell, subtract the commencement year from 99 together with the month
fraction, and round to one decimal.  No clamping of any kind. -/
def impute_row (month : Date) (lease_commence_date : ℤ) : ℚ :=
  let current_year : ℤ := month.year
  let current_month : ℕ := month.month
  let years_elapsed : ℚ := (current_year : ℚ) - (lease_commence_date : ℚ)
  let months_fraction : ℚ := (current_month : ℚ) / 12
  round1 (99 - years_elapsed - months_fraction)

/-- `impute_remaining_lease` over the table: the remaining_lease column
written for each (month, lease_commence_date) row. -/
def impute_remaining_lease (df : List (Date × ℤ)) : List ℚ :=
  df.map (fun r => impute_row r.1 r.2)

/-- Scan of `df.drop_duplicates()`: rows already seen are dropped, first
occurrences are kept in order. -/
def dropDupAux {α : Type} [DecidableEq α] (seen : List α) : List α → List α
  | [] => []
  | r :: rs => if r ∈ seen then dropDupAux seen rs else r :: dropDupAux (r :: seen) rs

/-- `clean_dataset` (src/utils.py lines 4-33): counts duplicates, drops
exact-duplicate rows keeping the first occurrence, reports missing values,
and returns the deduplicated table.  The dataset_name argument only feeds
the diagnostic printing. -/
def clean_dataset {α : Type} [DecidableEq α] (df : List α) (dataset_name : List Char) : List α :=
  dropDupAux [] df

/-- The duplicate count printed by `clean_dataset`
(`df.duplicated().sum()`): rows minus distinct rows. -/
def duplicates_count {α : Type} [DecidableEq α] (df : List α) : ℕ :=
  df.length - (dropDupAux [] df).length

/-- The per-column missing count printed by `clean_dataset`
(`df_cleaned.isna().sum()` for column j), computed on the deduplicated rows. -/
def missing_values (df : List (List Value)) (j : ℕ) : ℕ :=
  (df.filter (fun r => r.getD j (Value.num 0) = Value.null)).length

/-- One splitting step of `str.split(' TO ')`: accumulate characters until
the four-character separator occurs, then start a new field.  The fuel
argument only bounds the recursion and is always sufficient at the entry
point `splitTO`. -/
def splitTOFuel : ℕ → List Char → List Char → List (List Char)
  | 0, acc, rest => [acc.reverse ++ rest]
  | _ + 1, acc, [] => [acc.reverse]
  | fuel + 1, acc, c :: cs =>
    if hasPrefixL " TO ".toList (c :: cs) then
      acc.reverse :: splitTOFuel fuel [] (cs.drop 3)
    else splitTOFuel fuel (c :: acc) cs

/-- Python `s.split(' TO ')`: the list of fields between the (non-overlapping,
left-to-right) occurrences of the separator. -/
def splitTO (s : List Char) : List (List Char) :=
  splitTOFuel (s.length + 1) [] s

/-- An unsigned numeric literal as accepted by `pd.to_numeric`: digits with
an optional fractional part (exponents and surrounding whitespace are not
needed by any claim and are not modelled). -/
def parseUnsigned (l : List Char) : Option ℚ :=
  let p := takeDigits l
  match p.2 with
  | [] => if p.1 = [] then none else some ((digitsToNat p.1 : ℚ))
  | '.' :: r2 =>
    let f := takeDigits r2
    if f.2 = [] then
      if p.1 = [] ∧ f.1 = [] then none
      else some ((digitsToNat p.1 : ℚ) + (digitsToNat f.1 : ℚ) / (10 ^ f.1.length : ℚ))
    else none
  | _ => none

/-- `pd.to_numeric(..., errors=coerce)` on one cell: an optionally signed
numeric literal, anything unparseable coerced to a missing value. -/
def to_numeric : List Char → Option ℚ
  | '-' :: r => (parseUnsigned r).map (fun q => -q)
  | '+' :: r => parseUnsigned r
  | l => parseUnsigned l

/-- `split_storey_range` (src/utils.py lines 144-161).
`df['storey_range'].str.split(' TO ', expand=True)` yields one column per
field up to the maximum field count of the table; assigning that frame to
the two columns lower_storey/upper_storey succeeds only when that maximum
is exactly 2 (pandas raises "Columns must be same length as key"
otherwise).  On success each field is coerced with `pd.to_numeric`;
a row's absent second field is a missing value. -/
def split_storey_range (col : List (List Char)) : Except Unit (List (Option ℚ × Option ℚ)) :=
  let parts := col.map splitTO
  let width := (parts.map List.length).foldr max 0
  if width = 2 then
    .ok (parts.map (fun p => ((p.get? 0).bind to_numeric, (p.get? 1).bind to_numeric)))
  else .error ()

/-- A row of the storey table: the three grouping keys and the (possibly
missing) upper_storey value. -/
structure StoreyRow where
  town : List Char
  block : List Char
  street_name : List Char
  upper_storey : Option ℚ
deriving DecidableEq

/-- The groupby key of `add_max_storey`: the (town, block, street_name)
triple. -/
def groupKey (r : StoreyRow) : List Char × List Char × List Char :=
  (r.town, r.block, r.street_name)

/-- Maximum of a list of rationals, none when empty (the semantics of the
pandas max aggregation on the present values of a group). -/
def maxQ? : List ℚ → Option ℚ
  | [] => none
  | q :: qs =>
    match maxQ? qs with
    | none => some q
    | some m => some (max q m)

/-- The aggregated value for one group key: maximum of the non-missing
upper_storey values of the rows with that key, missing if there are none. -/
def groupMax (df : List StoreyRow) (k : List Char × List Char × List Char) : Option ℚ :=
  maxQ? ((df.filter (fun r => groupKey r = k)).filterMap (fun r => r.upper_storey))

/-- `add_max_storey` (src/utils.py lines 163-178):
`groupby([town, block, street_name])[upper_storey].transform(max)` pairs
every row, in order, with its group's maximum. -/
def add_max_storey (df : List StoreyRow) : List (StoreyRow × Option ℚ) :=
  df.map (fun r => (r, groupMax df (groupKey r)))

/-- `calculate_age_of_flat` (src/utils.py lines 180-194): 99 minus the
row's remaining_lease, clamped below at zero by `max(age, 0)`. -/
def calculate_age_of_flat (remaining_lease : ℚ) : ℚ :=
  max (99 - remaining_lease) 0

lemma ratFloor_eq_floor (q : ℚ) : ratFloor q = ⌊q⌋ := Rat.floor_def.symm

lemma roundHalfEven_intCast (n : ℤ) : roundHalfEven (n : ℚ) = n := by
  simp [roundHalfEven, ratFloor_eq_floor]

lemma le_roundHalfEven (q : ℚ) : ⌊q⌋ ≤ roundHalfEven q := by
  simp only [roundHalfEven, ratFloor_eq_floor]
  split_ifs <;> omega

lemma round1_tenths (n : ℤ) : round1 ((n : ℚ)/10) = (n : ℚ)/10 := by
  have h : 10 * ((n : ℚ)/10) = (n : ℚ) := by ring
  rw [round1, h, roundHalfEven_intCast]

lemma round1_idem (q : ℚ) : round1 (round1 q) = round1 q :=
  round1_tenths (roundHalfEven (10 * q))

lemma round1_99 : round1 (99 : ℚ) = 99 := by
  have h : (99 : ℚ) = ((990 : ℤ) : ℚ)/10 := by norm_num
  rw [h, round1_tenths]

lemma intCast_le_round1 (n : ℤ) (q : ℚ) (h : (n : ℚ) ≤ q) : (n : ℚ) ≤ round1 q := by
  have h1 : (10 * n : ℤ) ≤ ⌊10 * q⌋ := Int.le_floor.mpr (by push_cast; linarith)
  have h2 : ⌊10 * q⌋ ≤ roundHalfEven (10 * q) := le_roundHalfEven _
  have h3 : ((10 * n : ℤ) : ℚ) ≤ (roundHalfEven (10 * q) : ℚ) := by
    exact_mod_cast le_trans h1 h2
  rw [round1]
  push_cast at h3
  linarith

lemma takeDigits_nondigit (c : Char) (r : List Char) (h : c.isDigit = false) :
    takeDigits (c :: r) = ([], c :: r) := by
  simp [takeDigits, h]

lemma takeDigits_digits_append (d r : List Char) (h : ∀ c ∈ d, c.isDigit = true) :
    takeDigits (d ++ r) = (d ++ (takeDigits r).1, (takeDigits r).2) := by
  induction d with
  | nil => simp
  | cons c cs ih =>
    have hc : c.isDigit = true := h c (by simp)
    have ihc := ih (fun x hx => h x (by simp [hx]))
    simp [takeDigits, hc, ihc]

lemma hasPrefixL_append (p r : List Char) : hasPrefixL p (p ++ r) = true := by
  induction p with
  | nil => rfl
  | cons c cs ih => simp [hasPrefixL, ih]

lemma hasPrefixL_nil (l : List Char) : hasPrefixL [] l = true := rfl

lemma hasPrefixL_cons (p c : Char) (ps cs : List Char) :
    hasPrefixL (p :: ps) (c :: cs) = ((p == c) && hasPrefixL ps cs) := rfl

lemma hasPrefixL_cons_nil (p : Char) (ps : List Char) :
    hasPrefixL (p :: ps) [] = false := rfl

lemma matchFull_eq (d1 d2 rest : List Char)
    (h1 : ∀ c ∈ d1, c.isDigit = true) (h1n : d1 ≠ [])
    (h2 : ∀ c ∈ d2, c.isDigit = true) (h2n : d2 ≠ []) :
    matchFull (d1 ++ (" years ".toList ++ (d2 ++ (" months".toList ++ rest))))
      = some (digitsToNat d1, digitsToNat d2) := by
  have hsp : (' ').isDigit = false := by decide
  have e1 : takeDigits (d1 ++ (" years ".toList ++ (d2 ++ (" months".toList ++ rest))))
      = (d1, " years ".toList ++ (d2 ++ (" months".toList ++ rest))) := by
    rw [takeDigits_digits_append d1 _ h1]
    rw [show (" years ".toList ++ (d2 ++ (" months".toList ++ rest)))
          = ' ' :: ("years ".toList ++ (d2 ++ (" months".toList ++ rest))) from rfl]
    rw [takeDigits_nondigit _ _ hsp]
    simp
  have e2 : List.drop 7 (" years ".toList ++ (d2 ++ (" months".toList ++ rest)))
      = d2 ++ (" months".toList ++ rest) := by
    have h7 : " years ".toList.length = 7 := by decide
    rw [← h7]
    exact List.drop_left _ _
  have e3 : takeDigits (d2 ++ (" months".toList ++ rest))
      = (d2, " months".toList ++ rest) := by
    rw [takeDigits_digits_append d2 _ h2]
    rw [show (" months".toList ++ rest) = ' ' :: ("months".toList ++ rest) from rfl]
    rw [takeDigits_nondigit _ _ hsp]
    simp
  simp only [matchFull, e1, e2, e3]
  simp [h1n, h2n, hasPrefixL_cons, hasPrefixL_nil]

lemma matchYears_eq (d1 rest : List Char)
    (h1 : ∀ c ∈ d1, c.isDigit = true) (h1n : d1 ≠ []) :
    matchYears (d1 ++ (" years".toList ++ rest)) = some (digitsToNat d1) := by
  have hsp : (' ').isDigit = false := by decide
  have e1 : takeDigits (d1 ++ (" years".toList ++ rest))
      = (d1, " years".toList ++ rest) := by
    rw [takeDigits_digits_append d1 _ h1]
    rw [show (" years".toList ++ rest) = ' ' :: ("years".toList ++ rest) from rfl]
    rw [takeDigits_nondigit _ _ hsp]
    simp
  simp only [matchYears, e1]
  simp [h1n, hasPrefixL_cons, hasPrefixL_nil]

lemma matchFull_years_only (d1 : List Char)
    (h1 : ∀ c ∈ d1, c.isDigit = true) :
    matchFull (d1 ++ " years".toList) = none := by
  have hsp : (' ').isDigit = false := by decide
  have e1 : takeDigits (d1 ++ " years".toList) = (d1, " years".toList) := by
    rw [takeDigits_digits_append d1 _ h1]
    rw [show (" years".toList : List Char) = ' ' :: "years".toList from rfl]
    rw [takeDigits_nondigit _ _ hsp]
    simp
  have hnp : hasPrefixL " years ".toList " years".toList = false := by decide
  simp only [matchFull, e1]
  by_cases hd : d1 = [] <;>
    simp [hd, hasPrefixL_cons, hasPrefixL_nil, hasPrefixL_cons_nil]

lemma convert_lease_full_match (d1 d2 rest : List Char)
    (h1 : ∀ c ∈ d1, c.isDigit = true) (h1n : d1 ≠ [])
    (h2 : ∀ c ∈ d2, c.isDigit = true) (h2n : d2 ≠ []) :
    convert_lease (.str (d1 ++ (" years ".toList ++ (d2 ++ (" months".toList ++ rest)))))
      = some (min (round1 ((digitsToNat d1 : ℚ) + (digitsToNat d2 : ℚ) / 12)) 99) := by
  simp only [convert_lease, matchFull_eq d1 d2 rest h1 h1n h2 h2n]

lemma convert_lease_years_exact (d1 : List Char)
    (h1 : ∀ c ∈ d1, c.isDigit = true) (h1n : d1 ≠ []) :
    convert_lease (.str (d1 ++ " years".toList))
      = some (min (round1 (digitsToNat d1 : ℚ)) 99) := by
  have hy := matchYears_eq d1 [] h1 h1n
  simp only [List.append_nil] at hy
  simp only [convert_lease, matchFull_years_only d1 h1, hy]

lemma convert_lease_years_rest (d1 rest : List Char)
    (h1 : ∀ c ∈ d1, c.isDigit = true) (h1n : d1 ≠ [])
    (hnone : matchFull (d1 ++ (" years".toList ++ rest)) = none) :
    convert_lease (.str (d1 ++ (" years".toList ++ rest)))
      = some (min (round1 (digitsToNat d1 : ℚ)) 99) := by
  simp only [convert_lease, hnone, matchYears_eq d1 rest h1 h1n]

lemma convert_lease_shape (v : Value) :
    convert_lease v = none ∨ ∃ x, convert_lease v = some (min (round1 x) 99) := by
  cases v with
  | num q => exact Or.inr ⟨q, rfl⟩
  | null => exact Or.inl rfl
  | str s =>
    rcases hf : matchFull s with _ | ⟨y, m⟩
    · rcases hy : matchYears s with _ | y
      · exact Or.inl (by simp [convert_lease, hf, hy])
      · exact Or.inr ⟨(y : ℚ), by simp [convert_lease, hf, hy]⟩
    · exact Or.inr ⟨(y : ℚ) + (m : ℚ)/12, by simp [convert_lease, hf]⟩

lemma convert_lease_num_fix (x : ℚ) :
    convert_lease (.num (min (round1 x) 99)) = some (min (round1 x) 99) := by
  have h : round1 (min (round1 x) 99) = min (round1 x) 99 := by
    rcases le_total (round1 x) 99 with h | h
    · rw [min_eq_left h, round1_idem]
    · rw [min_eq_right h, round1_99]
  simp [convert_lease, h]

/-- C1: standardize_remaining_lease maps each remaining_lease value by the
priority rules of convert_lease: a numeric value is rounded to one decimal
and capped at 99.0 (values at or above 99 come back as exactly 99); a
string of the form "N years M months" yields years + months/12 rounded to
one decimal and capped; a string of the form "N years" yields the year
count capped; anything else yields null.  "10 years 6 months" gives 10.5,
"99 years" gives 99.0, 150 gives 99.0, "garbage" gives null, a missing
value stays missing, and every produced number is at most 99 (the cap
silently absorbs out-of-range input, nothing is raised). -/
theorem C1_standardize_remaining_lease :
    (∀ q : ℚ, convert_lease (.num q) = some (min (round1 q) 99)) ∧
    (∀ q : ℚ, 99 ≤ q → convert_lease (.num q) = some 99) ∧
    (∀ d1 d2 : List Char, (∀ c ∈ d1, c.isDigit = true) → d1 ≠ [] →
      (∀ c ∈ d2, c.isDigit = true) → d2 ≠ [] →
      convert_lease (.str (d1 ++ (" years ".toList ++ (d2 ++ " months".toList))))
        = some (min (round1 ((digitsToNat d1 : ℚ) + (digitsToNat d2 : ℚ) / 12)) 99)) ∧
    (∀ d1 : List Char, (∀ c ∈ d1, c.isDigit = true) → d1 ≠ [] →
      convert_lease (.str (d1 ++ " years".toList))
        = some (min (round1 (digitsToNat d1 : ℚ)) 99)) ∧
    convert_lease (.str "10 years 6 months".toList) = some (21/2) ∧
    convert_lease (.str "99 years".toList) = some 99 ∧
    convert_lease (.num 150) = some 99 ∧
    convert_lease (.str "garbage".toList) = none ∧
    convert_lease Value.null = none ∧
    (∀ v q, convert_lease v = some q → q ≤ 99) := by
  refine ⟨fun q => rfl, ?_, ?_, ?_, ?_, ?_, ?_, ?_, rfl, ?_⟩
  · intro q hq
    have h : (99 : ℚ) ≤ round1 q := by
      have := intCast_le_round1 99 q (by push_cast; linarith)
      push_cast at this
      linarith
    simp only [convert_lease]
    rw [min_eq_right h]
  · intro d1 d2 h1 h1n h2 h2n
    have := convert_lease_full_match d1 d2 [] h1 h1n h2 h2n
    simpa only [List.append_nil] using this
  · intro d1 h1 h1n
    exact convert_lease_years_exact d1 h1 h1n
  · have hm : matchFull "10 years 6 months".toList = some (10, 6) := by decide
    simp only [convert_lease, hm]
    have h1 : ((10:ℕ):ℚ) + ((6:ℕ):ℚ)/12 = ((105:ℤ):ℚ)/10 := by norm_num
    rw [h1, round1_tenths, min_eq_left (by norm_num)]
    norm_num
  · have hf : matchFull "99 years".toList = none := by decide
    have hy : matchYears "99 years".toList = some 99 := by decide
    simp only [convert_lease, hf, hy]
    have h1 : ((99:ℕ):ℚ) = ((990:ℤ):ℚ)/10 := by norm_num
    rw [h1, round1_tenths, min_eq_left (by norm_num)]
    norm_num
  · simp only [convert_lease]
    have h1 : (150:ℚ) = ((1500:ℤ):ℚ)/10 := by norm_num
    rw [h1, round1_tenths, min_eq_right (by norm_num)]
  · have hf : matchFull "garbage".toList = none := by decide
    have hy : matchYears "garbage".toList = none := by decide
    simp only [convert_lease, hf, hy]
  · intro v q h
    rcases convert_lease_shape v with hn | ⟨x, hx⟩
    · rw [h] at hn
      exact absurd hn (by simp)
    · rw [h] at hx
      have : q = min (round1 x) 99 := by injection hx
      rw [this]
      exact min_le_right _ _

/-- Closed instantiation of C1: the capped numeric branch at 150, the
full-pattern branch at "7 years 3 months" and the years-only branch at
"42 years". -/
theorem C1_standardize_remaining_lease_witness :
    convert_lease (.num 150) = some 99 ∧
    convert_lease (.str ("7".toList ++ (" years ".toList ++ ("3".toList ++ " months".toList))))
      = some (min (round1 ((digitsToNat "7".toList : ℚ) + (digitsToNat "3".toList : ℚ) / 12)) 99) ∧
    convert_lease (.str ("42".toList ++ " years".toList))
      = some (min (round1 (digitsToNat "42".toList : ℚ)) 99) :=
  ⟨C1_standardize_remaining_lease.2.1 150 (by norm_num),
   C1_standardize_remaining_lease.2.2.1 "7".toList "3".toList
     (by decide) (by decide) (by decide) (by decide),
   C1_standardize_remaining_lease.2.2.2.1 "42".toList (by decide) (by decide)⟩

/-- C2: applying the lease standardizer twice gives the same per-value
result as applying it once — the numeric branch is a no-op on the
standardizer's own numeric output, and a null first-pass result stays
null — and therefore the whole remaining_lease column is unchanged by a
second pass. -/
theorem C2_standardize_remaining_lease_idempotent :
    (∀ v : Value, convert_lease (resultToValue (convert_lease v)) = convert_lease v) ∧
    (∀ col : List Value,
      standardize_remaining_lease ((standardize_remaining_lease col).map resultToValue)
        = standardize_remaining_lease col) := by
  have hval : ∀ v : Value, convert_lease (resultToValue (convert_lease v)) = convert_lease v := by
    intro v
    rcases convert_lease_shape v with hn | ⟨x, hx⟩
    · rw [hn]
      rfl
    · rw [hx]
      exact convert_lease_num_fix x
  refine ⟨hval, fun col => ?_⟩
  simp only [standardize_remaining_lease, List.map_map]
  exact List.map_congr_left (fun v _ => hval v)

/-- C10: the two regex branches of the lease standardizer are anchored
only at the start (re.match), so a string that merely begins with
"N years M months" or with "N years" and continues with arbitrary extra
text still parses: the leading numbers are extracted and the capped
numeric value is returned rather than null.  Concretely,
"10 years 6 months extra" gives 10.5 and "15 years left" gives 15.0. -/
theorem C10_lease_match_is_anchored_only :
    (∀ d1 d2 rest : List Char, (∀ c ∈ d1, c.isDigit = true) → d1 ≠ [] →
      (∀ c ∈ d2, c.isDigit = true) → d2 ≠ [] →
      convert_lease (.str (d1 ++ (" years ".toList ++ (d2 ++ (" months".toList ++ rest)))))
        = some (min (round1 ((digitsToNat d1 : ℚ) + (digitsToNat d2 : ℚ) / 12)) 99)) ∧
    (∀ d1 rest : List Char, (∀ c ∈ d1, c.isDigit = true) → d1 ≠ [] →
      matchFull (d1 ++ (" years".toList ++ rest)) = none →
      convert_lease (.str (d1 ++ (" years".toList ++ rest)))
        = some (min (round1 (digitsToNat d1 : ℚ)) 99)) ∧
    convert_lease (.str "10 years 6 months extra".toList) = some (21/2) ∧
    convert_lease (.str "15 years left".toList) = some 15 := by
  refine ⟨convert_lease_full_match, convert_lease_years_rest, ?_, ?_⟩
  · have hm : matchFull "10 years 6 months extra".toList = some (10, 6) := by decide
    simp only [convert_lease, hm]
    have h1 : ((10:ℕ):ℚ) + ((6:ℕ):ℚ)/12 = ((105:ℤ):ℚ)/10 := by norm_num
    rw [h1, round1_tenths, min_eq_left (by norm_num)]
    norm_num
  · have hf : matchFull "15 years left".toList = none := by decide
    have hy : matchYears "15 years left".toList = some 15 := by decide
    simp only [convert_lease, hf, hy]
    have h1 : ((15:ℕ):ℚ) = ((150:ℤ):ℚ)/10 := by norm_num
    rw [h1, round1_tenths, min_eq_left (by norm_num)]
    norm_num

/-- Closed instantiation of C10: both anchored-match branches applied to
concrete strings with trailing extra text. -/
theorem C10_lease_match_is_anchored_only_witness :
    convert_lease (.str ("10".toList ++ (" years ".toList ++ ("6".toList ++ (" months".toList ++ " extra".toList)))))
      = some (min (round1 ((digitsToNat "10".toList : ℚ) + (digitsToNat "6".toList : ℚ) / 12)) 99) ∧
    convert_lease (.str ("15".toList ++ (" years".toList ++ " left".toList)))
      = some (min (round1 (digitsToNat "15".toList : ℚ)) 99) :=
  ⟨C10_lease_match_is_anchored_only.1 "10".toList "6".toList " extra".toList
     (by decide) (by decide) (by decide) (by decide),
   C10_lease_match_is_anchored_only.2.1 "15".toList " left".toList
     (by decide) (by decide) (by decide)⟩

/-- C9: calculate_age_of_flat returns max(99 - remaining_lease, 0): the
result is never negative, values of remaining_lease at most 99 give
exactly 99 - remaining_lease, values above 99 are clamped to zero (105
gives 0, not -6), and the function is total — no error for negative
derived ages. -/
theorem C9_calculate_age_of_flat_clamped :
    (∀ q : ℚ, 0 ≤ calculate_age_of_flat q) ∧
    (∀ q : ℚ, q ≤ 99 → calculate_age_of_flat q = 99 - q) ∧
    (∀ q : ℚ, 99 ≤ q → calculate_age_of_flat q = 0) ∧
    calculate_age_of_flat 105 = 0 := by
  refine ⟨fun q => le_max_right _ _,
    fun q h => max_eq_left (by linarith),
    fun q h => max_eq_right (by linarith), ?_⟩
  rw [show calculate_age_of_flat 105 = max (99 - 105 : ℚ) 0 from rfl]
  rw [max_eq_right (by norm_num)]

/-- Closed instantiation of C9: the clamp at remaining_lease = 105 and the
linear branch at remaining_lease = 50. -/
theorem C9_calculate_age_of_flat_clamped_witness :
    calculate_age_of_flat 105 = 0 ∧ calculate_age_of_flat 50 = 99 - 50 :=
  ⟨C9_calculate_age_of_flat_clamped.2.2.1 105 (by norm_num),
   C9_calculate_age_of_flat_clamped.2.1 50 (by norm_num)⟩

/-- C4: impute_remaining_lease writes, for every row,
round(99 - (current_year - commence_year) - current_month/12, 1) with no
clamping: a 1900 commencement seen in 2024-06 produces -25.5 (negative)
and a 2100 commencement seen in 2024-06 produces 174.5 (above 99); both
inconsistent inputs pass through uncapped. -/
theorem C4_impute_remaining_lease_unclamped :
    (∀ df : List (Date × ℤ), impute_remaining_lease df
        = df.map (fun r => round1 (99 - ((r.1.year : ℚ) - (r.2 : ℚ)) - (r.1.month : ℚ) / 12))) ∧
    impute_row ⟨2024, 6, 1⟩ 1900 = -51/2 ∧
    impute_row ⟨2024, 6, 1⟩ 1900 < 0 ∧
    impute_row ⟨2024, 6, 1⟩ 2100 = 349/2 ∧
    99 < impute_row ⟨2024, 6, 1⟩ 2100 := by
  have h1 : impute_row ⟨2024, 6, 1⟩ 1900 = -51/2 := by
    have e : impute_row ⟨2024, 6, 1⟩ 1900 = round1 (((-255:ℤ):ℚ)/10) := by
      simp only [impute_row]
      norm_num
    rw [e, round1_tenths]
    norm_num
  have h2 : impute_row ⟨2024, 6, 1⟩ 2100 = 349/2 := by
    have e : impute_row ⟨2024, 6, 1⟩ 2100 = round1 (((1745:ℤ):ℚ)/10) := by
      simp only [impute_row]
      norm_num
    rw [e, round1_tenths]
    norm_num
  refine ⟨fun df => ?_, h1, by rw [h1]; norm_num, h2, by rw [h2]; norm_num⟩
  simp only [impute_remaining_lease, impute_row]
  refine List.map_congr_left (fun r _ => ?_)
  push_cast
  ring_nf

/-- C3 as stated is false on the code: the pandas string accessor does not
pass non-string values through unchanged; a numeric flat_model cell (5)
comes out as a missing value, not as itself. -/
theorem C3_counterexample_nonstring_not_preserved :
    clean_flat_model_val (Value.num 5) = Value.null ∧
    clean_flat_model_val (Value.num 5) ≠ Value.num 5 := by
  refine ⟨rfl, ?_⟩
  intro h
  exact Value.noConfusion h

/-- C3 (amended): clean_flat_model replaces each string value by that
string stripped of surrounding whitespace and upper-cased ("  abc "
becomes "ABC"), missing values stay missing, but every non-string
non-missing value becomes a missing value (the .str accessor yields NaN
for non-strings) instead of passing through unchanged. -/
theorem C3_clean_flat_model_amended :
    (∀ col : List Value, clean_flat_model col = col.map clean_flat_model_val) ∧
    clean_flat_model_val Value.null = Value.null ∧
    (∀ s, clean_flat_model_val (.str s) = .str (pyUpper (pyStrip s))) ∧
    clean_flat_model_val (.str "  abc ".toList) = .str "ABC".toList ∧
    (∀ q, clean_flat_model_val (.num q) = Value.null) := by
  refine ⟨fun col => rfl, rfl, fun s => rfl, ?_, fun q => rfl⟩
  show Value.str (pyUpper (pyStrip "  abc ".toList)) = Value.str "ABC".toList
  have h : pyUpper (pyStrip "  abc ".toList) = "ABC".toList := by decide
  rw [h]

lemma dropDupAux_sublist {α : Type} [DecidableEq α] (seen : List α) (l : List α) :
    List.Sublist (dropDupAux seen l) l := by
  induction l generalizing seen with
  | nil => simp [dropDupAux]
  | cons r rs ih =>
    by_cases hr : r ∈ seen
    · simp only [dropDupAux, if_pos hr]
      exact (ih seen).cons r
    · simp only [dropDupAux, if_neg hr]
      exact (ih (r :: seen)).cons₂ r

lemma mem_dropDupAux {α : Type} [DecidableEq α] (seen l : List α) (a : α) :
    a ∈ dropDupAux seen l ↔ a ∈ l ∧ a ∉ seen := by
  induction l generalizing seen with
  | nil => simp [dropDupAux]
  | cons r rs ih =>
    by_cases hr : r ∈ seen
    · by_cases har : a = r
      · subst har
        simp only [dropDupAux, if_pos hr, ih]
        simp [hr]
      · simp [dropDupAux, hr, har, ih, List.mem_cons]
    · by_cases har : a = r <;> simp [dropDupAux, hr, har, ih, List.mem_cons]

lemma dropDupAux_nodup {α : Type} [DecidableEq α] (seen l : List α) :
    (dropDupAux seen l).Nodup := by
  induction l generalizing seen with
  | nil => simp [dropDupAux]
  | cons r rs ih =>
    by_cases hr : r ∈ seen
    · simp only [dropDupAux, if_pos hr]
      exact ih seen
    · simp only [dropDupAux, if_neg hr]
      refine List.nodup_cons.mpr ⟨?_, ih (r :: seen)⟩
      intro hmem
      exact ((mem_dropDupAux _ _ _).mp hmem).2 (List.mem_cons_self r seen)

lemma dropDupAux_seen_filter {α : Type} [DecidableEq α] (s1 s2 l : List α) :
    dropDupAux (s1 ++ s2) l = dropDupAux s1 (l.filter (fun x => x ∉ s2)) := by
  induction l generalizing s1 with
  | nil => simp [dropDupAux]
  | cons r rs ih =>
    by_cases hr2 : r ∈ s2
    · have hr12 : r ∈ s1 ++ s2 := List.mem_append_right s1 hr2
      simp [dropDupAux, hr12, List.filter_cons, hr2, ih s1]
    · by_cases hr1 : r ∈ s1
      · have hr12 : r ∈ s1 ++ s2 := List.mem_append_left s2 hr1
        simp [dropDupAux, hr12, List.filter_cons, hr2, hr1, ih s1]
      · have hr12 : r ∉ s1 ++ s2 := by simp [List.mem_append, hr1, hr2]
        have h2 := ih (r :: s1)
        rw [List.cons_append] at h2
        simp [dropDupAux, hr12, List.filter_cons, hr2, hr1, h2]

lemma clean_dataset_cons {α : Type} [DecidableEq α] (a : α) (l : List α) (name : List Char) :
    clean_dataset (a :: l) name = a :: clean_dataset (l.filter (fun x => x ≠ a)) name := by
  have h0 : dropDupAux ([] : List α) (a :: l) = a :: dropDupAux [a] l := by
    simp [dropDupAux]
  have h1 := dropDupAux_seen_filter ([] : List α) [a] l
  simp only [List.nil_append] at h1
  have h2 : l.filter (fun x => x ∉ [a]) = l.filter (fun x => x ≠ a) :=
    List.filter_congr (fun x _ => by simp)
  rw [clean_dataset, h0, h1, h2, clean_dataset]

/-- C5: clean_dataset returns a duplicate-free table: no two rows of the
result are equal, the result is a sublist of the input (so every result
row occurs in the input, in input order, with no fabricated rows and at
most as many rows); duplicates are removed keeping the first occurrence;
the dataset_name used for diagnostics never changes the returned table,
the printed duplicate count is exactly the number of removed rows, and
the empty table is valid input returning the empty table. -/
theorem C5_clean_dataset_dedup :
    (∀ (α : Type) [DecidableEq α] (df : List α) (name : List Char),
      (clean_dataset df name).Nodup ∧
      List.Sublist (clean_dataset df name) df ∧
      (clean_dataset df name).length ≤ df.length ∧
      (∀ a, a ∈ clean_dataset df name ↔ a ∈ df)) ∧
    (∀ (α : Type) [DecidableEq α] (a : α) (l : List α) (name : List Char),
      clean_dataset (a :: l) name = a :: clean_dataset (l.filter (fun x => x ≠ a)) name) ∧
    (∀ (α : Type) [DecidableEq α] (df : List α) (n1 n2 : List Char),
      clean_dataset df n1 = clean_dataset df n2) ∧
    (∀ name, clean_dataset ([] : List (List Value)) name = []) ∧
    (∀ (α : Type) [DecidableEq α] (df : List α) (name : List Char),
      duplicates_count df = df.length - (clean_dataset df name).length) := by
  refine ⟨?_, ?_, ?_, ?_, ?_⟩
  · intro α _ df name
    refine ⟨dropDupAux_nodup [] df, dropDupAux_sublist [] df,
      (dropDupAux_sublist [] df).length_le, ?_⟩
    intro a
    rw [clean_dataset, mem_dropDupAux]
    simp
  · intro α _ a l name
    exact clean_dataset_cons a l name
  · intro α _ df n1 n2
    rfl
  · intro name
    rfl
  · intro α _ df name
    rfl

/-- Closed instantiation of C5 on a small concrete table with one
duplicate row. -/
theorem C5_clean_dataset_dedup_witness :
    ((clean_dataset [1, 2, 1] "t".toList).Nodup ∧
      List.Sublist (clean_dataset [1, 2, 1] "t".toList) [1, 2, 1] ∧
      (clean_dataset [1, 2, 1] "t".toList).length ≤ 3 ∧
      (∀ a, a ∈ clean_dataset [1, 2, 1] "t".toList ↔ a ∈ [1, 2, 1])) ∧
    clean_dataset [1, 2, 1] "t".toList = [1, 2] ∧
    duplicates_count [1, 2, 1] = 1 :=
  ⟨C5_clean_dataset_dedup.1 ℕ [1, 2, 1] "t".toList, by decide, by decide⟩

lemma to_numeric_04 : to_numeric ['0', '4'] = some 4 := by
  have h1 : takeDigits ['0', '4'] = (['0', '4'], []) := by decide
  have h2 : digitsToNat ['0', '4'] = 4 := by decide
  rw [show to_numeric ['0', '4'] = parseUnsigned ['0', '4'] from rfl]
  simp only [parseUnsigned, h1]
  rw [if_neg (by decide : ¬(['0', '4'] = ([] : List Char))), h2]
  norm_num

lemma to_numeric_06 : to_numeric ['0', '6'] = some 6 := by
  have h1 : takeDigits ['0', '6'] = (['0', '6'], []) := by decide
  have h2 : digitsToNat ['0', '6'] = 6 := by decide
  rw [show to_numeric ['0', '6'] = parseUnsigned ['0', '6'] from rfl]
  simp only [parseUnsigned, h1]
  rw [if_neg (by decide : ¬(['0', '6'] = ([] : List Char))), h2]
  norm_num

lemma to_numeric_bad : to_numeric ['b', 'a', 'd'] = none := by decide

/-- C7 as stated is false on the code: split_storey_range does not always
succeed.  A storey_range value containing two separators ("01 TO 02 TO
03") makes `str.split(' TO ', expand=True)` produce three columns, and
assigning that frame to the two target columns raises — the whole table
fails, it is not resolved per-row to missing values. -/
theorem C7_counterexample_split_storey_range_raises :
    split_storey_range ["01 TO 02 TO 03".toList] = .error () := by
  have hs : ["01 TO 02 TO 03".toList].map splitTO
      = [["01".toList, "02".toList, "03".toList]] := by decide
  have hw : (([["01".toList, "02".toList, "03".toList]].map List.length).foldr max 0) = 3 := by
    decide
  simp only [split_storey_range, hs]
  rw [hw]
  norm_num

/-- C7 (amended): when the maximum field count over the table is exactly
two, the assignment succeeds: each row "L TO U" yields the numbers L and
U ("04 TO 06" gives lower 4 and upper 6), and a row with an unparseable
component gets a missing value there without failing the other rows
("bad" gives lower null, upper null).  But when the maximum field count
differs from two — some value holding two or more separators, or no value
holding any — pandas raises and the whole table fails. -/
theorem C7_split_storey_range_amended :
    split_storey_range ["04 TO 06".toList, "bad".toList]
      = .ok [(some 4, some 6), (none, none)] ∧
    (∀ col : List (List Char), col ≠ [] →
      ((∃ out, split_storey_range col = .ok out) ↔
        (((col.map splitTO).map List.length).foldr max 0 = 2))) ∧
    (∀ col out, split_storey_range col = .ok out → out.length = col.length) ∧
    (∀ col out, split_storey_range col = .ok out →
      ∀ (i : ℕ) s, col[i]? = some s →
        out[i]? = some (((splitTO s).get? 0).bind to_numeric,
          ((splitTO s).get? 1).bind to_numeric)) := by
  refine ⟨?_, ?_, ?_, ?_⟩
  · have hs : ["04 TO 06".toList, "bad".toList].map splitTO
        = [["04".toList, "06".toList], ["bad".toList]] := by decide
    have hw : (([["04".toList, "06".toList], ["bad".toList]].map List.length).foldr max 0) = 2 := by
      decide
    simp only [split_storey_range, hs]
    rw [hw, if_pos rfl]
    have e04 : "04".toList = ['0', '4'] := by decide
    have e06 : "06".toList = ['0', '6'] := by decide
    have ebad : "bad".toList = ['b', 'a', 'd'] := by decide
    simp only [List.map_cons, List.map_nil, e04, e06, ebad]
    simp [to_numeric_04, to_numeric_06, to_numeric_bad, List.get?]
  · intro col hne
    constructor
    · rintro ⟨out, hout⟩
      simp only [split_storey_range] at hout
      split_ifs at hout with hw
      exact hw
    · intro hw
      refine ⟨(col.map splitTO).map
        (fun p => ((p.get? 0).bind to_numeric, (p.get? 1).bind to_numeric)), ?_⟩
      simp only [split_storey_range]
      rw [if_pos hw]
  · intro col out hout
    simp only [split_storey_range] at hout
    split_ifs at hout with hw
    cases hout
    simp
  · intro col out hout i s hs
    simp only [split_storey_range] at hout
    split_ifs at hout with hw
    cases hout
    rw [List.getElem?_map, List.getElem?_map, hs]
    rfl

/-- Closed instantiation of C7 (amended): the mixed two-row table above
satisfies the success condition and the per-row description. -/
theorem C7_split_storey_range_amended_witness :
    (∃ out, split_storey_range ["04 TO 06".toList, "bad".toList] = .ok out) ∧
    (∀ out, split_storey_range ["04 TO 06".toList, "bad".toList] = .ok out →
      out.length = 2) :=
  ⟨(C7_split_storey_range_amended.2.1 ["04 TO 06".toList, "bad".toList]
      (by simp)).mpr (by decide),
   fun out hout => C7_split_storey_range_amended.2.2.1 _ out hout⟩

lemma maxQ?_eq_none_iff (l : List ℚ) : maxQ? l = none ↔ l = [] := by
  cases l with
  | nil => simp [maxQ?]
  | cons q qs =>
    cases h : maxQ? qs <;> simp [maxQ?, h]

lemma maxQ?_mem (l : List ℚ) (m : ℚ) (h : maxQ? l = some m) : m ∈ l := by
  induction l generalizing m with
  | nil => cases h
  | cons q qs ih =>
    rcases hq : maxQ? qs with _ | m0
    · rw [maxQ?, hq] at h
      cases h
      simp
    · rw [maxQ?, hq] at h
      cases h
      rcases max_choice q m0 with he | he
      · rw [he]
        simp
      · rw [he]
        simp [ih m0 hq]

lemma le_maxQ? (l : List ℚ) (m : ℚ) (h : maxQ? l = some m) :
    ∀ x ∈ l, x ≤ m := by
  induction l generalizing m with
  | nil => simp
  | cons q qs ih =>
    intro x hx
    rcases hq : maxQ? qs with _ | m0
    · rw [maxQ?, hq] at h
      cases h
      have : qs = [] := (maxQ?_eq_none_iff qs).mp hq
      subst this
      simp at hx
      simp [hx]
    · rw [maxQ?, hq] at h
      cases h
      rcases List.mem_cons.mp hx with rfl | hmem
      · exact le_max_left _ _
      · exact le_trans (ih m0 hq x hmem) (le_max_right _ _)

lemma maxQ?_cons_isSome (q : ℚ) (qs : List ℚ) : ∃ m, maxQ? (q :: qs) = some m := by
  cases h : maxQ? qs with
  | none => exact ⟨q, by rw [maxQ?, h]⟩
  | some m0 => exact ⟨max q m0, by rw [maxQ?, h]⟩

/-- C8: add_max_storey gives every row, in order, a max_storey equal to
the maximum upper_storey over all rows sharing its (town, block,
street_name) key: rows with a missing upper_storey participate in the
group but are excluded from the maximum, the result is missing exactly
when every row of the group has a missing upper_storey, the attained
maximum belongs to some row of the group and bounds all of them, and a
single-row table gets its own upper_storey back. -/
theorem C8_add_max_storey_group_max :
    (∀ df : List StoreyRow, (add_max_storey df).map Prod.fst = df) ∧
    (∀ df r m, (r, m) ∈ add_max_storey df →
      ((m = none ↔ ∀ r2 ∈ df, groupKey r2 = groupKey r → r2.upper_storey = none) ∧
       (∀ q, m = some q →
         (∃ r2 ∈ df, groupKey r2 = groupKey r ∧ r2.upper_storey = some q) ∧
         (∀ r2 ∈ df, groupKey r2 = groupKey r →
           ∀ q2, r2.upper_storey = some q2 → q2 ≤ q)))) ∧
    (∀ r : StoreyRow, add_max_storey [r] = [(r, r.upper_storey)]) := by
  refine ⟨?_, ?_, ?_⟩
  · intro df
    simp [add_max_storey, List.map_map, Function.comp_def]
  · intro df r m hmem
    simp only [add_max_storey, List.mem_map] at hmem
    rcases hmem with ⟨r0, hr0, heq⟩
    cases heq
    constructor
    · rw [groupMax, maxQ?_eq_none_iff, List.filterMap_eq_nil]
      constructor
      · intro h r2 h2 hk
        exact h r2 (List.mem_filter.mpr ⟨h2, by simp [hk]⟩)
      · intro h r2 h2
        have h2m := List.mem_filter.mp h2
        exact h r2 h2m.1 (by simpa using h2m.2)
    · intro q hq
      rw [groupMax] at hq
      constructor
      · have hmemq := maxQ?_mem _ _ hq
        rcases List.mem_filterMap.mp hmemq with ⟨r2, h2, hup⟩
        have h2m := List.mem_filter.mp h2
        exact ⟨r2, h2m.1, by simpa using h2m.2, hup⟩
      · intro r2 h2 hk q2 hq2
        refine le_maxQ? _ _ hq q2 (List.mem_filterMap.mpr ⟨r2, ?_, hq2⟩)
        exact List.mem_filter.mpr ⟨h2, by simp [hk]⟩
  · intro r
    rcases h : r.upper_storey with _ | q <;>
      simp [add_max_storey, groupMax, maxQ?, h, List.filter, List.filterMap]

/-- Closed instantiation of C8 on the three-row example group (upper
storeys 5, 9 and missing): every row receives max_storey 9, the maximum 9
is attained by a row of the group, and it bounds all present values. -/
theorem C8_add_max_storey_group_max_witness :
    add_max_storey
        [⟨"T1".toList, "B1".toList, "S1".toList, some 5⟩,
         ⟨"T1".toList, "B1".toList, "S1".toList, some 9⟩,
         ⟨"T1".toList, "B1".toList, "S1".toList, none⟩]
      = [(⟨"T1".toList, "B1".toList, "S1".toList, some 5⟩, some 9),
         (⟨"T1".toList, "B1".toList, "S1".toList, some 9⟩, some 9),
         (⟨"T1".toList, "B1".toList, "S1".toList, none⟩, some 9)] ∧
    (∃ r2 ∈ [(⟨"T1".toList, "B1".toList, "S1".toList, some 5⟩ : StoreyRow),
         ⟨"T1".toList, "B1".toList, "S1".toList, some 9⟩,
         ⟨"T1".toList, "B1".toList, "S1".toList, none⟩],
      groupKey r2 = groupKey (⟨"T1".toList, "B1".toList, "S1".toList, some 5⟩ : StoreyRow) ∧
      r2.upper_storey = some 9) ∧
    (∀ r2 ∈ [(⟨"T1".toList, "B1".toList, "S1".toList, some 5⟩ : StoreyRow),
         ⟨"T1".toList, "B1".toList, "S1".toList, some 9⟩,
         ⟨"T1".toList, "B1".toList, "S1".toList, none⟩],
      groupKey r2 = groupKey (⟨"T1".toList, "B1".toList, "S1".toList, some 5⟩ : StoreyRow) →
      ∀ q2, r2.upper_storey = some q2 → q2 ≤ 9) := by
  have hmem : ((⟨"T1".toList, "B1".toList, "S1".toList, some 5⟩ : StoreyRow), (some 9 : Option ℚ))
      ∈ add_max_storey
        [⟨"T1".toList, "B1".toList, "S1".toList, some 5⟩,
         ⟨"T1".toList, "B1".toList, "S1".toList, some 9⟩,
         ⟨"T1".toList, "B1".toList, "S1".toList, none⟩] := by decide
  have hc := (C8_add_max_storey_group_max.2.1 _ _ _ hmem).2 9 rfl
  exact ⟨by decide, hc.1, hc.2⟩
